import Mathlib

/-!
# CANON `canon_optimal.c` — a shallow embedding in Lean 4

This file embeds the core of `src/source_code/canon_optimal.c` (the GF(2)
basis construction, compression, decompression and the persisted file
format) as executable Lean definitions, and proves or refutes the
specified properties of the program.

Bytes are modelled as `Nat` values (inputs are below 256; `^^^` is the
C XOR on `uint8_t`). The C struct `GF2_Basis` keeps a `MAX_RANK`-byte
buffer whose filled prefix has length `rank`; the embedding tracks that
filled prefix as a list. The extra `err` flag records whether the
"Maximum rank exceeded" message was printed to stderr (a side effect
that lives outside the struct in C).
-/

/-- `MAX_RANK` from canon_optimal.c line 26. -/
def MAX_RANK : Nat := 65536

/-- The `GF2_Basis` struct (canon_optimal.c lines 33–38).
`basis` is the filled prefix of the `MAX_RANK`-byte buffer,
`derivation` the filled prefix of the `uint32_t` derivation array,
`span_signature` the 256-entry table allocated by `calloc` (indexed by
byte value, all zero initially), and `err` records the stderr message
of the capacity branch of `add_to_basis`. -/
structure GF2_Basis where
  basis : List Nat
  rank : Nat
  derivation : List Nat
  span_signature : Nat → Nat
  err : Bool

/-- `basis_init` (lines 55–62): empty buffers, `rank = 0`,
`span_signature` zeroed by `calloc`. -/
def basis_init : GF2_Basis :=
  { basis := [], rank := 0, derivation := [], span_signature := fun _ => 0, err := false }

/-- The descending highest-set-bit scan of `in_span` (lines 97–101):
start at bit `k`, decrement while the bit is clear, result is the bit
index or `-1` when no bit at or below `k` is set. -/
def highestBitFrom (x : Nat) : Nat → Int
  | 0 => if x &&& 1 ≠ 0 then 0 else -1
  | k + 1 => if x &&& (1 <<< (k + 1)) ≠ 0 then ((k + 1 : Nat) : Int) else highestBitFrom x k

/-- The C loops start at bit 7 (`int bit_r = 7`). -/
def highestBit (x : Nat) : Int := highestBitFrom x 7

/-- One iteration of the reduction loop in `in_span` (lines 93–107):
XOR the basis entry into the residue exactly when both share the same
highest set bit (`bit_r == bit_b && bit_r >= 0`). -/
def reduceStep (residue b : Nat) : Nat :=
  if highestBit residue = highestBit b ∧ 0 ≤ highestBit residue then residue ^^^ b else residue

/-- `in_span` (lines 83–110): early-out on `rank == 0`, the
"probabilistic" `span_signature` quick check, then one in-order pass of
`reduceStep` over `basis[0..rank-1]`; the byte is reported in span iff
the final residue is zero. -/
def in_span (x : Nat) (B : GF2_Basis) : Bool :=
  if B.rank = 0 then false
  else if B.span_signature x = 0 then false
  else (B.basis.take B.rank).foldl reduceStep x == 0

/-- `B->span_signature[k] = 1`. -/
def setSig (s : Nat → Nat) (k : Nat) : Nat → Nat :=
  fun y => if y = k then 1 else s y

/-- `add_to_basis` (lines 118–143): if `in_span` reports the byte
dependent, return `false` unchanged; if `rank >= MAX_RANK`, print the
capacity error (recorded in `err`) and return `false`; otherwise append
the raw byte `x` and the input `position` at index `rank`, set
`span_signature[x] = 1` and `span_signature[basis[i] ^ x] = 1` for all
`i < rank` (the old entries), and increment `rank`. -/
def add_to_basis (B : GF2_Basis) (x position : Nat) : Bool × GF2_Basis :=
  if in_span x B then (false, B)
  else if MAX_RANK ≤ B.rank then (false, { B with err := true })
  else
    (true,
      { basis := B.basis ++ [x]
        rank := B.rank + 1
        derivation := B.derivation ++ [position]
        span_signature :=
          (B.basis.take B.rank).foldl (fun s b => setSig s (b ^^^ x)) (setSig B.span_signature x)
        err := B.err })

/-- The loop of `canon_compress` (lines 157–167): feed `data[i]` with
its position `i` to `add_to_basis`, ignoring the returned Bool. -/
def canon_compressAux (B : GF2_Basis) (pos : Nat) : List Nat → GF2_Basis
  | [] => B
  | x :: rest => canon_compressAux (add_to_basis B x pos).2 (pos + 1) rest

/-- `canon_compress` (lines 153–172). -/
def canon_compress (data : List Nat) : GF2_Basis :=
  canon_compressAux basis_init 0 data

/-- `canon_decompress` (lines 180–189): sets `*output_size = B->rank`
and `memcpy`s the first `rank` bytes of the basis buffer. -/
def canon_decompress (B : GF2_Basis) : List Nat × Nat :=
  (B.basis.take B.rank, B.rank)

/-- Little-endian bytes of a `uint32_t`, as `fwrite` emits them. -/
def le32 (n : Nat) : List Nat :=
  [n % 256, n / 256 % 256, n / 65536 % 256, n / 16777216 % 256]

/-- The 5 magic bytes "CANON". -/
def magicCANON : List Nat := [67, 65, 78, 79, 78]

/-- `save_compressed` (lines 243–262) as the byte sequence written to
the output file: magic, `rank` (uint32), the `rank` basis bytes, then
the `rank` derivation entries (uint32 each). -/
def save_compressed (B : GF2_Basis) : List Nat :=
  magicCANON ++ le32 B.rank ++ B.basis.take B.rank ++ ((B.derivation.take B.rank).map le32).flatten

/-- Value of little-endian bytes (missing trailing bytes read as 0,
matching a partial `fread` into a zero-initialized field). -/
def leVal (bs : List Nat) : Nat := bs.foldr (fun b acc => b + 256 * acc) 0

/-- Split a byte sequence into complete little-endian `uint32_t`
values; a trailing fragment of fewer than 4 bytes is not a complete
element and is dropped (a partial `fread` element is indeterminate). -/
def bytesToU32s : List Nat → List Nat
  | b0 :: b1 :: b2 :: b3 :: rest => leVal [b0, b1, b2, b3] :: bytesToU32s rest
  | _ => []

/-- `load_compressed` (lines 267–296) on the byte content of the input
file: reject unless the first five bytes are exactly "CANON" (the
`strcmp` against the zero-filled 6-byte header buffer succeeds iff the
five magic bytes were read), then read `rank`, `rank` basis bytes and
`rank` derivation entries. Bytes the file does not supply are left as
the buffers had them (not observed by any property below). -/
def load_compressed (file : List Nat) : Option GF2_Basis :=
  if file.take 5 = magicCANON then
    some
      { basis := ((file.drop 5).drop 4).take (leVal ((file.drop 5).take 4))
        rank := leVal ((file.drop 5).take 4)
        derivation :=
          bytesToU32s ((((file.drop 5).drop 4).drop (leVal ((file.drop 5).take 4))).take
            (4 * leVal ((file.drop 5).take 4)))
        span_signature := fun _ => 0
        err := false }
  else none

/-- The `decompress` branch of `main` (lines 381–409): result is the
process exit code together with the bytes written to the output file
(`none` when no output file is produced). `load_compressed` returning
`NULL` makes `main` return 1 before any output file is opened. -/
def mainDecompress (file : List Nat) : Nat × Option (List Nat) :=
  match load_compressed file with
  | none => (1, none)
  | some B => (0, some (canon_decompress B).1)

/-- Mathematical GF(2) span membership, used to state the claims about
linear dependence: XOR of the sublist of `bs` selected by the bits of
`mask`. -/
def xorSelect : List Nat → Nat → Nat
  | [], _ => 0
  | b :: rest, m => (if m % 2 = 1 then b else 0) ^^^ xorSelect rest (m / 2)

/-- `x` is an XOR-combination of elements of `bs` (decidable search
over all masks). -/
def memSpanB (x : Nat) (bs : List Nat) : Bool :=
  (List.range (2 ^ bs.length)).any (fun m => xorSelect bs m == x)

/-! ## Invariants shared by several claims -/

/-- One `add_to_basis` call keeps the filled prefixes of the basis and
derivation buffers exactly `rank` long. -/
lemma add_to_basis_lengths (B : GF2_Basis) (x p : Nat)
    (hb : B.basis.length = B.rank) (hd : B.derivation.length = B.rank) :
    ((add_to_basis B x p).2).basis.length = ((add_to_basis B x p).2).rank ∧
    ((add_to_basis B x p).2).derivation.length = ((add_to_basis B x p).2).rank := by
  unfold add_to_basis
  split
  · exact ⟨hb, hd⟩
  · split
    · exact ⟨hb, hd⟩
    · simp [hb, hd]

/-- The compression loop keeps the filled prefixes `rank` long. -/
lemma canon_compressAux_lengths (l : List Nat) : ∀ (B : GF2_Basis) (pos : Nat),
    B.basis.length = B.rank → B.derivation.length = B.rank →
    (canon_compressAux B pos l).basis.length = (canon_compressAux B pos l).rank ∧
    (canon_compressAux B pos l).derivation.length = (canon_compressAux B pos l).rank := by
  induction l with
  | nil => intro B pos hb hd; exact ⟨hb, hd⟩
  | cons x rest ih =>
    intro B pos hb hd
    have h := add_to_basis_lengths B x pos hb hd
    exact ih _ _ h.1 h.2

/-- Processing a concatenation is processing the pieces in sequence,
with the position counter advanced by the length of the first piece. -/
lemma canon_compressAux_append (l1 l2 : List Nat) : ∀ (B : GF2_Basis) (pos : Nat),
    canon_compressAux B pos (l1 ++ l2) =
      canon_compressAux (canon_compressAux B pos l1) (pos + l1.length) l2 := by
  induction l1 with
  | nil => intro B pos; simp [canon_compressAux]
  | cons x rest ih =>
    intro B pos
    show canon_compressAux (add_to_basis B x pos).2 (pos + 1) (rest ++ l2) = _
    rw [ih]
    simp [canon_compressAux]
    ring_nf

/-- For every list of derivation entries, the serialized records take
exactly 4 bytes each. -/
lemma flatten_map_le32_length (l : List Nat) : ((l.map le32).flatten).length = 4 * l.length := by
  induction l with
  | nil => simp
  | cons a t ih =>
    simp only [List.map_cons, List.flatten_cons, List.length_append, ih, le32,
      List.length_cons, List.length_nil]
    omega

/-! ## The claims -/

/-- C1: the round-trip property fails on the code. `canon_decompress`
does not evaluate the derivation map at all; it returns the basis
itself. For the input `[5, 5]` (two identical bytes) the decompressed
output is `[5]` of length 1, not the original two bytes. -/
theorem decompress_not_inverse_on_duplicate_input :
    (canon_decompress (canon_compress [5, 5])).1 = [5] ∧
    (canon_decompress (canon_compress [5, 5])).1 ≠ [5, 5] ∧
    (canon_decompress (canon_compress [5, 5])).2 ≠ 2 := by
  decide

/-- C2: compression does not record a derivation for every unit. For
the input `[5, 5]` (n = 2 units) the derivation array holds a single
entry — the input position 0 of the one basis element — so unit 1 has
no derivation record at all, and no entry is a set of basis indices. -/
theorem derivation_missing_record_for_second_unit :
    (canon_compress [5, 5]).derivation = [0] ∧
    (canon_compress [5, 5]).derivation.length ≠ 2 := by
  decide

/-- C3: the rank bound `rank ≤ W = 8` fails on the code. On the
9-byte input `[1, 2, 3, 3, 3, 3, 3, 3, 3]` the single-pass reduction of
`in_span` never detects that 3 is already in the span of {1, 2}, so
every copy of 3 is inserted and the rank reaches 9 > 8. -/
theorem rank_exceeds_unit_width :
    (canon_compress [1, 2, 3, 3, 3, 3, 3, 3, 3]).rank = 9 ∧
    ¬ (canon_compress [1, 2, 3, 3, 3, 3, 3, 3, 3]).rank ≤ 8 := by
  decide

/-- C4: `add_to_basis` does not return `false` exactly on the linearly
dependent units. After compressing `[1, 2]` the byte `3 = 1 XOR 2` is
in the GF(2) span of the basis, yet `add_to_basis` returns
`inserted = true` and appends it. -/
theorem dependent_unit_reported_independent :
    (add_to_basis (canon_compress [1, 2]) 3 2).1 = true ∧
    memSpanB 3 ((canon_compress [1, 2]).basis.take (canon_compress [1, 2]).rank) = true := by
  decide

/-- C5: the zero unit is inserted. `in_span` returns `false` whenever
`rank == 0`, also for the byte 0, so the first zero of an all-zero
input is appended to the basis and the rank of `[0, 0, 0]` is 1,
not 0. -/
theorem zero_unit_inserted_into_basis :
    (add_to_basis basis_init 0 0).1 = true ∧
    (canon_compress [0]).basis = [0] ∧
    (canon_compress [0, 0, 0]).rank = 1 := by
  decide

/-- C6: the basis invariants fail. Compressing `[0]` puts the zero
byte into the basis; compressing `[1, 2, 3]` appends the raw unit 3
(not the reduced residue 1), leaving two basis entries (2 and 3) with
the same pivot (highest set) bit. -/
theorem basis_invariant_violated :
    (canon_compress [0]).basis = [0] ∧
    (canon_compress [1, 2, 3]).basis = [1, 2, 3] ∧
    highestBit ((canon_compress [1, 2, 3]).basis.getD 1 0) =
      highestBit ((canon_compress [1, 2, 3]).basis.getD 2 0) := by
  decide

/-- C8: a file whose first five bytes are not "CANON" is rejected:
`load_compressed` returns `NULL` and the decompress branch of `main`
exits with code 1 before an output file is opened. -/
theorem bad_magic_rejected_no_output (file : List Nat) (h : file.take 5 ≠ magicCANON) :
    load_compressed file = none ∧ mainDecompress file = (1, none) := by
  have hl : load_compressed file = none := by
    unfold load_compressed
    rw [if_neg h]
  refine ⟨hl, ?_⟩
  unfold mainDecompress
  rw [hl]

/-- Witness for C8 at the concrete file content `[88, 65, 78, 79, 78]`
("XANON"). -/
theorem bad_magic_rejected_no_output_witness :
    load_compressed [88, 65, 78, 79, 78] = none ∧
    mainDecompress [88, 65, 78, 79, 78] = (1, none) :=
  bad_magic_rejected_no_output [88, 65, 78, 79, 78] (by decide)

/-- C9 counterexample: for the input `[5, 5]` (n = 2 units) the saved
file is exactly 14 bytes — magic, rank = 1, one basis byte, one 4-byte
derivation entry. It holds 1 derivation record, not n = 2, and no
field carries the unit width W or the unit count n. -/
theorem saved_format_has_rank_records_not_n :
    save_compressed (canon_compress [5, 5]) =
      [67, 65, 78, 79, 78, 1, 0, 0, 0, 5, 0, 0, 0, 0] ∧
    ((canon_compress [5, 5]).derivation.take (canon_compress [5, 5]).rank).length ≠ 2 := by
  decide

/-- C9 amended: the saved file consists of the 5 magic bytes, the
4-byte rank r, the r basis bytes and r 4-byte derivation entries —
9 + 5·r bytes in total, with no unit-width and no unit-count field and
r (not n) derivation records. -/
theorem saved_format_structure (data : List Nat) :
    (save_compressed (canon_compress data)).take 5 = magicCANON ∧
    (save_compressed (canon_compress data)).length = 9 + 5 * (canon_compress data).rank := by
  have hb : (canon_compress data).basis.length = (canon_compress data).rank :=
    (canon_compressAux_lengths data basis_init 0 rfl rfl).1
  have hd : (canon_compress data).derivation.length = (canon_compress data).rank :=
    (canon_compressAux_lengths data basis_init 0 rfl rfl).2
  constructor
  · unfold save_compressed
    rw [List.append_assoc, List.append_assoc]
    have h5 : magicCANON.length = 5 := rfl
    rw [← h5, List.take_left]
  · unfold save_compressed
    rw [List.take_of_length_le (le_of_eq hb), List.take_of_length_le (le_of_eq hd)]
    simp only [List.length_append, flatten_map_le32_length, hb, hd]
    show 5 + (le32 (canon_compress data).rank).length + _ + _ = _
    simp only [le32, List.length_cons, List.length_nil]
    omega

/-- C10: `canon_decompress` sets the output size to the rank and
returns the first `rank` bytes of the basis buffer, for every basis
structure; in particular on any compression result the output is the
whole filled basis, whose length is the rank — independent of the
length of the original input. -/
theorem decompress_returns_basis_prefix_and_rank :
    (∀ B : GF2_Basis, canon_decompress B = (B.basis.take B.rank, B.rank)) ∧
    (∀ data : List Nat,
      canon_decompress (canon_compress data) =
        ((canon_compress data).basis, (canon_compress data).rank) ∧
      (canon_decompress (canon_compress data)).1.length = (canon_compress data).rank) := by
  refine ⟨fun B => rfl, fun data => ?_⟩
  have hb : (canon_compress data).basis.length = (canon_compress data).rank :=
    (canon_compressAux_lengths data basis_init 0 rfl rfl).1
  constructor
  · show ((canon_compress data).basis.take (canon_compress data).rank, _) = _
    rw [List.take_of_length_le (le_of_eq hb)]
  · show ((canon_compress data).basis.take (canon_compress data).rank).length = _
    rw [List.take_of_length_le (le_of_eq hb), hb]

/-! ## C7: what happens when the rank reaches MAX_RANK -/

/-- The reduction loop leaves residue 1 unchanged on a run of 3s: the
highest bit of 1 is bit 0, the highest bit of 3 is bit 1. -/
lemma reduce_one_over_threes (m : Nat) :
    (List.replicate m 3).foldl reduceStep 1 = 1 := by
  induction m with
  | zero => rfl
  | succ k ih =>
    rw [List.replicate_succ]
    show (List.replicate k 3).foldl reduceStep (reduceStep 1 3) = 1
    rw [show reduceStep 1 3 = 1 from by decide, ih]

/-- On every state whose filled basis is `[1, 2]` followed by any
number of 3s, `in_span` fails to recognise 3 as dependent (the single
pass reduces 3 to residue 1 and stops), provided the signature entry
of 3 is set. -/
lemma in_span_three_false (B : GF2_Basis) (m : Nat)
    (hbasis : B.basis = [1, 2] ++ List.replicate m 3)
    (hrank : B.rank = m + 2)
    (hsig : B.span_signature 3 = 1) :
    in_span 3 B = false := by
  unfold in_span
  rw [hrank, hsig, hbasis]
  rw [if_neg (by omega)]
  rw [if_neg (by decide)]
  rw [List.take_of_length_le (by simp)]
  rw [List.foldl_append]
  rw [show List.foldl reduceStep 3 [1, 2] = 1 from by decide]
  rw [reduce_one_over_threes]
  rfl

/-- `setSig` writes only 1s, so a signature entry that is 1 stays 1
through the signature-update fold of `add_to_basis`. -/
lemma sig_fold_keeps_one (l : List Nat) (v y : Nat) :
    ∀ s : Nat → Nat, s y = 1 →
    (l.foldl (fun s b => setSig s (b ^^^ v)) s) y = 1 := by
  induction l with
  | nil => intro s h; exact h
  | cons b t ih =>
    intro s h
    apply ih
    unfold setSig
    by_cases hc : y = b ^^^ v
    · simp [hc]
    · simp [hc, h]

/-- One insertion of the byte 3 below capacity: basis and rank grow by
one raw 3, the signature of 3 stays set, `err` is unchanged. -/
lemma add_three_step (B : GF2_Basis) (m pos : Nat)
    (hbasis : B.basis = [1, 2] ++ List.replicate m 3)
    (hrank : B.rank = m + 2)
    (hsig : B.span_signature 3 = 1)
    (hlt : m + 2 < 65536) :
    (add_to_basis B 3 pos).2.basis = [1, 2] ++ List.replicate (m + 1) 3 ∧
    (add_to_basis B 3 pos).2.rank = m + 3 ∧
    (add_to_basis B 3 pos).2.span_signature 3 = 1 ∧
    (add_to_basis B 3 pos).2.err = B.err := by
  unfold add_to_basis
  rw [in_span_three_false B m hbasis hrank hsig]
  rw [if_neg (by simp)]
  rw [if_neg (by unfold MAX_RANK; omega)]
  refine ⟨?_, ?_, ?_, rfl⟩
  · show B.basis ++ [3] = _
    rw [hbasis, List.replicate_succ' m 3, List.append_assoc]
  · show B.rank + 1 = m + 3
    omega
  · show ((B.basis.take B.rank).foldl (fun s b => setSig s (b ^^^ 3))
      (setSig B.span_signature 3)) 3 = 1
    apply sig_fold_keeps_one
    unfold setSig
    simp

/-- Feeding `j` further 3s into a state of the above shape while the
capacity is not yet reached: every copy is inserted. -/
lemma compress_threes (j : Nat) :
    ∀ (m pos : Nat) (B : GF2_Basis),
    B.basis = [1, 2] ++ List.replicate m 3 →
    B.rank = m + 2 →
    B.span_signature 3 = 1 →
    B.err = false →
    m + j ≤ 65534 →
    (canon_compressAux B pos (List.replicate j 3)).basis = [1, 2] ++ List.replicate (m + j) 3 ∧
    (canon_compressAux B pos (List.replicate j 3)).rank = m + j + 2 ∧
    (canon_compressAux B pos (List.replicate j 3)).span_signature 3 = 1 ∧
    (canon_compressAux B pos (List.replicate j 3)).err = false := by
  induction j with
  | zero =>
    intro m pos B hb hr hs he _
    exact ⟨hb, hr, hs, he⟩
  | succ k ih =>
    intro m pos B hb hr hs he hle
    rw [List.replicate_succ]
    show (canon_compressAux (add_to_basis B 3 pos).2 (pos + 1) (List.replicate k 3)).basis = _ ∧ _
    have hstep := add_three_step B m pos hb hr hs (by omega)
    have herr : (add_to_basis B 3 pos).2.err = false := by rw [hstep.2.2.2, he]
    have hres := ih (m + 1) (pos + 1) (add_to_basis B 3 pos).2 hstep.1
      (by rw [hstep.2.1]) hstep.2.2.1 herr (by omega)
    have harith : m + 1 + k = m + (k + 1) := by omega
    rw [harith] at hres
    exact hres

/-- Unfolding equation of the compression loop on a cons cell. -/
lemma canon_compressAux_cons (B : GF2_Basis) (pos x : Nat) (l : List Nat) :
    canon_compressAux B pos (x :: l) = canon_compressAux (add_to_basis B x pos).2 (pos + 1) l := rfl

/-- Unfolding equation of the compression loop on the empty list. -/
lemma canon_compressAux_nil (B : GF2_Basis) (pos : Nat) : canon_compressAux B pos [] = B := rfl

/-- The capacity branch of `add_to_basis`: when the unit passes the
dependence check but the rank has reached `MAX_RANK`, the returned
state is unchanged except for the recorded stderr message. -/
lemma add_to_basis_capacity (B : GF2_Basis) (x pos : Nat)
    (hins : in_span x B = false) (hcap : MAX_RANK ≤ B.rank) :
    (add_to_basis B x pos).2 = { B with err := true } := by
  unfold add_to_basis
  rw [hins]
  rw [if_neg (by decide)]
  rw [if_pos hcap]

/-- Projection of the `err := true` update. -/
lemma err_update_rank (B : GF2_Basis) : ({ B with err := true } : GF2_Basis).rank = B.rank := rfl

/-- Projection of the `err := true` update. -/
lemma err_update_basis (B : GF2_Basis) : ({ B with err := true } : GF2_Basis).basis = B.basis := rfl

/-- Projection of the `err := true` update. -/
lemma err_update_err (B : GF2_Basis) : ({ B with err := true } : GF2_Basis).err = true := rfl

/-- C7: the capacity condition is not fatal. On the 65537-byte input
`1, 2` followed by 65535 copies of 3, the broken dependence check
keeps inserting 3 until `rank = MAX_RANK = 65536`; the next 3 takes
the `rank >= MAX_RANK` branch, which prints the error (recorded in
`err`) and returns `false`, but `canon_compress` ignores the return
value, drops the unit and runs to completion: it still returns a basis
(with 65536 entries, one unit short) that `main` then saves. -/
theorem capacity_error_not_fatal :
    (canon_compress (1 :: 2 :: List.replicate 65535 3)).err = true ∧
    (canon_compress (1 :: 2 :: List.replicate 65535 3)).rank = 65536 ∧
    (canon_compress (1 :: 2 :: List.replicate 65535 3)).basis.length = 65536 := by
  have h0 : canon_compress (1 :: 2 :: List.replicate 65535 3) =
      canon_compressAux ((add_to_basis (add_to_basis basis_init 1 0).2 2 1).2) 2
        (List.replicate 65535 3) := by
    unfold canon_compress
    rw [canon_compressAux_cons, canon_compressAux_cons]
  have hsplit : List.replicate 65535 3 = List.replicate 65534 3 ++ [3] := by
    rw [show (65535 : Nat) = 65534 + 1 from by norm_num]
    exact List.replicate_succ' 65534 3
  have hS0b : ((add_to_basis (add_to_basis basis_init 1 0).2 2 1).2).basis =
      [1, 2] ++ List.replicate 0 3 := by decide
  have hS0r : ((add_to_basis (add_to_basis basis_init 1 0).2 2 1).2).rank = 0 + 2 := by decide
  have hS0s : ((add_to_basis (add_to_basis basis_init 1 0).2 2 1).2).span_signature 3 = 1 := by
    decide
  have hS0e : ((add_to_basis (add_to_basis basis_init 1 0).2 2 1).2).err = false := by decide
  have h1 := compress_threes 65534 0 2 ((add_to_basis (add_to_basis basis_init 1 0).2 2 1).2)
    hS0b hS0r hS0s hS0e (by omega)
  simp only [Nat.zero_add] at h1
  rw [h0, hsplit, canon_compressAux_append]
  rw [canon_compressAux_cons, canon_compressAux_nil]
  have hin := in_span_three_false
    (canon_compressAux ((add_to_basis (add_to_basis basis_init 1 0).2 2 1).2) 2
      (List.replicate 65534 3)) 65534 h1.1 h1.2.1 h1.2.2.1
  rw [add_to_basis_capacity _ 3 (2 + (List.replicate 65534 3).length) hin
    (by rw [h1.2.1]; decide)]
  rw [err_update_err, err_update_rank, err_update_basis, h1.2.1, h1.1]
  refine ⟨rfl, rfl, ?_⟩
  rw [List.length_append, List.length_replicate]
  decide
